import Mathlib

/-!
Verification development for the local metadata-fetch daemon
(`src/python/daemon.py`).  The daemon accepts one JSON document per
connection, dispatches on its shape (batch fetch / pinyin query / legacy
batch / legacy single), resolves target-domain hostnames through a
hosts-file / custom-override / cache / DNS-over-HTTPS chain, and returns
one JSON document.

The embedding below translates the relevant functions of `daemon.py`:
  * `is_ip_address`, `patched_getaddrinfo` (lines 176-273),
  * `doh_lookup` together with its provider chain (lines 206-260),
  * `get_pinyin_permutations` (lines 49-93),
  * the `dns_settings` update loop of `handle_client` (lines 407-421),
  * `execute_request` (lines 325-351) and the dispatch / execution /
    response logic of `handle_client` (lines 353-433).

External effects (the network, the C library resolver `inet_aton`,
Python's `str.isalnum` / single-character `str.upper`, and the pinyin
character table loaded from a resource file) are modelled as oracle
parameters; the repository's own logic is translated faithfully.
-/

namespace Daemon

/-- Minimal model of a parsed JSON value (the result of `json.loads`).
Objects are association lists with distinct keys, as produced by
Python's JSON parser. -/
inductive JSON where
  | null : JSON
  | bool (b : Bool) : JSON
  | num (n : Int) : JSON
  | str (s : String) : JSON
  | arr (items : List JSON) : JSON
  | obj (fields : List (String × JSON)) : JSON

/-- Model of `dict.get k`: first binding of `k` in the association list. -/
def jlookup (fields : List (String × JSON)) (k : String) : Option JSON :=
  (fields.find? (fun kv => kv.1 = k)).map (fun kv => kv.2)

/-- Model of `k in dict`. -/
def hasKey (fields : List (String × JSON)) (k : String) : Bool :=
  fields.any (fun kv => kv.1 = k)

/-- Python truthiness test (`if not v:`) on an optional JSON value;
`none` stands for an absent key, i.e. Python `None`. -/
def isFalsy : Option JSON → Bool
  | none => true
  | some .null => true
  | some (.bool b) => !b
  | some (.num n) => n = 0
  | some (.str s) => s = ""
  | some (.arr l) => l.isEmpty
  | some (.obj l) => l.isEmpty

/-! ## DNS layer: `is_ip_address`, `doh_lookup`, `patched_getaddrinfo` -/

/-- The initial value of `TARGET_DOMAINS` (daemon.py line 23). -/
def TARGET_DOMAINS : List String :=
  ["themoviedb.org", "tmdb.org", "fanart.tv", "imdb.com", "trakt.tv"]

/-- Embedding of `is_ip_address` (daemon.py lines 176-181): `socket.inet_aton` either
succeeds (return `True`) or raises, in which case the result is
`':' in host`.  The C library function `inet_aton` is external to the
repository, so it is a parameter `aton`: `aton host = true` models a
call that succeeds. -/
def is_ip_address (aton : String → Bool) (host : String) : Bool :=
  aton host || host.toList.contains ':'

/-- A hostname→address map (`HOSTS_MAP`, `CUSTOM_IP_MAP`, `DNS_CACHE`). -/
def StrMap : Type := String → Option String

/-- The value observed by `doh_lookup` together with the cache state it
leaves behind and counts of the externally observable actions it took:
reachability probes (`check_connectivity` calls) and DoH provider
requests. -/
structure LookupResult where
  answer : Option String
  cache : StrMap
  probes : Nat
  dohQueries : Nat

/-- One entry per configured DoH provider: `some ip` models a 200
response whose `Answer` section contains an A record with address `ip`;
`none` models any failure (exception, non-200 status, missing `Answer`,
or no type-1 record), after which the loop continues. -/
def firstSome : List (Option String) → Option String
  | [] => none
  | some ip :: _ => some ip
  | none :: rest => firstSome rest

/-- The provider loop of `doh_lookup` (daemon.py lines 237-260): try each
provider in order; on the first A-record answer, store it in `DNS_CACHE`
and return it; if every provider fails, return `None` with the cache
untouched. -/
def dohChain (providers : List (Option String)) (cache : StrMap)
    (host : String) (probes : Nat) (queries : Nat) : LookupResult :=
  match providers with
  | [] => ⟨none, cache, probes, queries⟩
  | some ip :: _ =>
      ⟨some ip, fun x => if x = host then some ip else cache x, probes, queries + 1⟩
  | none :: rest => dohChain rest cache host probes (queries + 1)

/-- Embedding of `doh_lookup` (daemon.py lines 206-260).  Order: hosts file, custom
override (probed, skipped when unreachable; the probe is short-circuited
when the stored override is the empty string), cache, provider chain.
`probe ip host` models `check_connectivity(ip, host=host)`. -/
def doh_lookup (hosts custom : StrMap) (probe : String → String → Bool)
    (providers : List (Option String)) (cache : StrMap) (host : String) :
    LookupResult :=
  match hosts host with
  | some ip => ⟨some ip, cache, 0, 0⟩
  | none =>
    match custom host with
    | some ip =>
      if ip ≠ "" && probe ip host then ⟨some ip, cache, 1, 0⟩
      else
        let probes := if ip ≠ "" then 1 else 0
        match cache host with
        | some c => ⟨some c, cache, probes, 0⟩
        | none => dohChain providers cache host probes 0
    | none =>
      match cache host with
      | some c => ⟨some c, cache, 0, 0⟩
      | none => dohChain providers cache host 0 0

/-- Substring containment on character lists: Python's `d in host` for
strings.  `containsSub needle hay` is true when `needle` occurs as a
contiguous run inside `hay`. -/
def containsSub (needle : List Char) : List Char → Bool
  | [] => needle.isEmpty
  | c :: t => needle.isPrefixOf (c :: t) || containsSub needle t

/-- Outcome of `patched_getaddrinfo`: either the call is delegated to the
saved `ORIGINAL_GETADDRINFO` (possibly after an unanswered DoH lookup),
or it returns the single-address list built from a `doh_lookup` answer. -/
inductive AddrInfo where
  | original : AddrInfo
  | doh (ip : String) : AddrInfo
deriving DecidableEq

/-- Embedding of `patched_getaddrinfo` (daemon.py lines 262-273).  `d in host` is
Python substring containment, so the target test is
`containsSub` on the character lists.  `lookup` abstracts
`doh_lookup` with the ambient map/cache state fixed. -/
def patched_getaddrinfo (aton : String → Bool) (targets : List String)
    (lookup : String → Option String) (host : String) : AddrInfo :=
  if is_ip_address aton host then .original
  else if targets.any (fun d => containsSub d.toList host.toList) then
    match lookup host with
    | some ip => .doh ip
    | none => .original
  else .original

/-- Spec-side matching relation, written from the spec's words: the
Target Domain Set is described as "a list of domain suffixes", so a
hostname matches when some target domain is a suffix of it.  Used only
to compare the specified behaviour with the code's substring test. -/
def matchesSuffix (targets : List String) (host : String) : Bool :=
  targets.any (fun d => d.toList.isSuffixOf host.toList)

/-! ## Pinyin permutations (`get_pinyin_permutations`, lines 49-93)

The character table (`CHAR_MAP`, loaded at runtime from
`resources/char_map.json`), Python's `str.isalnum` and single-character
`str.upper` are external inputs and appear as parameters `charMap`,
`isAlnum` and `upper`.  Text is embedded as `List Char`. -/

/-- First-seen-order deduplication (the `seen` set / `initials` list
pattern used twice in `get_pinyin_permutations`). -/
def dedupAux [DecidableEq α] (seen : List α) : List α → List α
  | [] => []
  | x :: xs => if x ∈ seen then dedupAux seen xs else x :: dedupAux (x :: seen) xs

/-- Deduplicate a list, keeping the first occurrence of each element. -/
def dedupFirst [DecidableEq α] (l : List α) : List α := dedupAux [] l

/-- Model of `itertools.product`: Cartesian product of a list of lists in
positional order, the first list varying slowest. -/
def cartProd : List (List α) → List (List α)
  | [] => [[]]
  | l :: ls => l.flatMap (fun x => (cartProd ls).map (fun p => x :: p))

/-- The per-entry initial extraction (daemon.py lines 58-67): for each
nonempty pinyin string take its uppercased first letter, deduplicating
while preserving order. -/
def initials_of (upper : Char → Char) (pinyins : List String) : List Char :=
  dedupFirst (pinyins.filterMap (fun p => p.toList.head?.map upper))

/-- The per-character loop of `get_pinyin_permutations` (lines 54-76):
a character in the table contributes its initial set when nonempty;
a character that is absent (or whose initial set is empty) contributes
its uppercased self when alphanumeric and is dropped otherwise. -/
def char_initials (charMap : Char → Option (List String))
    (isAlnum : Char → Bool) (upper : Char → Char) : List Char → List (List Char)
  | [] => []
  | c :: rest =>
    let tail := char_initials charMap isAlnum upper rest
    match charMap c with
    | some pinyins =>
      let initials := initials_of upper pinyins
      if initials ≠ [] then initials :: tail
      else if isAlnum c then [upper c] :: tail else tail
    | none => if isAlnum c then [upper c] :: tail else tail

/-- Embedding of `get_pinyin_permutations` (daemon.py lines 49-93).  `genFails = true`
models an exception raised inside the `try` block that wraps the
Cartesian product / join / deduplication (lines 79-90); the `except`
handler returns the input text unchanged (line 93).  Candidate strings
are the product tuples themselves since every initial is one character;
candidates are deduplicated first-seen and joined with `"|"`. -/
def get_pinyin_permutations (charMap : Char → Option (List String))
    (isAlnum : Char → Bool) (upper : Char → Char) (genFails : Bool)
    (text : List Char) : List Char :=
  if text = [] then []
  else if genFails then text
  else
    List.intercalate ['|']
      (dedupFirst (cartProd (char_initials charMap isAlnum upper text)))

/-- Per-character mapping following the claim's words: "mapping each
character to its ordered set of initial letters from the character
table (a character absent from the table maps to its uppercased self if
alphanumeric and is otherwise dropped)".  It differs from
`char_initials` only on table entries whose derived initial set is
empty, which the claim leaves undescribed. -/
def spec_char_initials (charMap : Char → Option (List String))
    (isAlnum : Char → Bool) (upper : Char → Char) : List Char → List (List Char)
  | [] => []
  | c :: rest =>
    let tail := spec_char_initials charMap isAlnum upper rest
    match charMap c with
    | some pinyins => initials_of upper pinyins :: tail
    | none => if isAlnum c then [upper c] :: tail else tail

/-- The pinyin result as the claim describes it: Cartesian product of
the per-character initial sets in positional order, concatenation,
first-seen deduplication, `"|"`-join. -/
def spec_pinyin (charMap : Char → Option (List String))
    (isAlnum : Char → Bool) (upper : Char → Char) (text : List Char) : List Char :=
  List.intercalate ['|']
    (dedupFirst (cartProd (spec_char_initials charMap isAlnum upper text)))

/-! ## `dns_settings` updates to `CUSTOM_IP_MAP` (lines 407-421) -/

/-- One iteration of the `dns_settings` loop: an empty value deletes the
key when present; a non-empty value is written when it differs from the
stored one. -/
def applyEntry (m : StrMap) (kv : String × String) : StrMap :=
  if kv.2 = "" then
    if m kv.1 ≠ none then fun x => if x = kv.1 then none else m x else m
  else if m kv.1 ≠ some kv.2 then fun x => if x = kv.1 then some kv.2 else m x
  else m

/-- The whole `dns_settings` loop over the update's (key, value) pairs
in iteration order. -/
def applyDnsSettings (m : StrMap) (u : List (String × String)) : StrMap :=
  u.foldl applyEntry m

/-- The value the update assigns to a key: its last occurrence in the
update, if any. -/
def lookupLast : List (String × String) → String → Option String
  | [], _ => none
  | kv :: rest, x =>
    match lookupLast rest x with
    | some w => some w
    | none => if x = kv.1 then some kv.2 else none

/-! ## `execute_request` (lines 325-351) and `handle_client` (353-438) -/

/-- Outcome of the external `session.get` / `raise_for_status` /
`resp.text` / `resp.json()` sequence for a given URL: either a response
(status, body text, best-effort parsed JSON body) that survived
`raise_for_status`, or an exception with message `msg` (connection
error, timeout, or the `HTTPError` raised by `raise_for_status`). -/
inductive NetOutcome where
  | ok (status : Int) (text : String) (body : Option JSON) : NetOutcome
  | exc (msg : String) : NetOutcome

/-- The body of `execute_request` on a dict request (lines 326-351):
a falsy `url` short-circuits to `{'error': 'No URL provided'}` before
any session is taken; otherwise the network outcome is converted to a
`{'status','text','json'}` object or an `{'error': ...}` object.  A
truthy non-string `url` makes `session.get` raise inside the `try`,
which is likewise caught and converted to an error object (its message
is modelled as `"invalid URL"`). -/
def fetch_result (net : String → NetOutcome) (fs : List (String × JSON)) : JSON :=
  let url := jlookup fs "url"
  if isFalsy url then .obj [("error", .str "No URL provided")]
  else
    match url with
    | some (.str u) =>
      match net u with
      | .ok s t b => .obj [("status", .num s), ("text", .str t), ("json", b.getD .null)]
      | .exc m => .obj [("error", .str m)]
    | _ => .obj [("error", .str "invalid URL")]

/-- Embedding of `execute_request` (lines 325-351): on a dict it returns a result
object and never raises; on a non-dict, `request.get` raises an
`AttributeError` that propagates to the caller. -/
def execute_request (net : String → NetOutcome) : JSON → Except String JSON
  | .obj fs => .ok (fetch_result net fs)
  | _ => .error "AttributeError"

/-- Total restriction of `execute_request` to the dict requests on
which it cannot raise (the only requests that reach the execution step
of `handle_client`, see `specOk`). -/
def exec_total (net : String → NetOutcome) : JSON → JSON
  | .obj fs => fetch_result net fs
  | _ => .obj []

/-- Whether a request item survives the logging loop of `handle_client`
(lines 396-403): `itm.get('url', '')` requires a dict, and
`urlparse` requires the `url` value, when present, to be a string. -/
def specOk : JSON → Bool
  | .obj fs =>
    match jlookup fs "url" with
    | none => true
    | some (.str _) => true
    | some _ => false
  | _ => false

/-- String-valued entries of a `dns_settings` object, in order.
(Non-string override values are not modelled; the protocol described in
the spec sends address strings.) -/
def dnsEntries (ds : List (String × JSON)) : List (String × String) :=
  ds.filterMap (fun kv =>
    match kv.2 with
    | .str v => some (kv.1, v)
    | _ => none)

/-- Materialisation of `list(executor.map(f, specs))`: results are
collected in submission order; the first exception raised by an item
propagates. -/
def mapE (f : JSON → Except String JSON) : List JSON → Except String (List JSON)
  | [] => .ok []
  | x :: xs =>
    match f x with
    | .error e => .error e
    | .ok y =>
      match mapE f xs with
      | .error e => .error e
      | .ok ys => .ok (y :: ys)

/-- What `handle_client` did with one connection: the JSON document
sent back (`none` when an exception aborted the handler before
`sendall`), the `CUSTOM_IP_MAP` state it leaves behind, and whether
`get_thread_pool` (the Worker Pool Manager) was contacted. -/
structure HandleResult where
  response : Option JSON
  custom : StrMap
  poolUsed : Bool

/-- Response framing (lines 429-433): a dict payload without a
`requests` key gets its single result unwrapped, every other shape gets
the results array. -/
def respondWith (wrapArray : Bool) (results : List JSON) : Option JSON :=
  if wrapArray then some (.arr results)
  else
    match results with
    | r :: _ => some r
    | [] => none

/-- The fetch pipeline shared by all non-pinyin variants: the logging
loop (which aborts the handler on a malformed item, before the DNS
update), the `dns_settings` update, the single/batch execution split at
`len(requests_list) == 1` (line 423), and response framing.  `dnsVal`
is `payload.get('dns_settings')` (only ever set for the V2 shape);
a truthy non-dict value makes `.items()` raise, aborting the handler. -/
def runFetch (net : String → NetOutcome) (custom : StrMap) (specs : List JSON)
    (dnsVal : Option JSON) (wrapArray : Bool) : HandleResult :=
  if specs.all specOk then
    let custom' : Option StrMap :=
      match dnsVal with
      | none => some custom
      | some v =>
        if isFalsy (some v) then some custom
        else
          match v with
          | .obj ds => some (applyDnsSettings custom (dnsEntries ds))
          | _ => none
    match custom' with
    | none => ⟨none, custom, false⟩
    | some c' =>
      match mapE (execute_request net) specs with
      | .ok results => ⟨respondWith wrapArray results, c', specs.length != 1⟩
      | .error _ => ⟨none, c', specs.length != 1⟩
  else ⟨none, custom, false⟩

/-- Embedding of `handle_client` (lines 353-438) after a complete JSON document
`payload` has been framed: dispatch order is object-with-`requests`,
then object-with-`pinyin`, then array, then anything else as a single
legacy spec.  The pinyin branch computes on string input, returns
`{'result': ''}` on falsy non-string input (`get_pinyin_permutations`
returns `""` immediately), and raises on truthy non-string input, which
the surrounding `try` converts to an error object. -/
def handle_client (net : String → NetOutcome)
    (charMap : Char → Option (List String)) (isAlnum : Char → Bool)
    (upper : Char → Char) (genFails : Bool)
    (custom : StrMap) (payload : JSON) : HandleResult :=
  match payload with
  | .obj fs =>
    if hasKey fs "requests" then
      match jlookup fs "requests" with
      | some (.arr specs) => runFetch net custom specs (jlookup fs "dns_settings") true
      | _ => ⟨none, custom, false⟩
    else if hasKey fs "pinyin" then
      match jlookup fs "pinyin" with
      | some (.str t) =>
        ⟨some (.obj [("result",
            .str (String.mk (get_pinyin_permutations charMap isAlnum upper genFails t.toList)))]),
          custom, false⟩
      | some v =>
        if isFalsy (some v) then ⟨some (.obj [("result", .str "")]), custom, false⟩
        else ⟨some (.obj [("error", .str "TypeError")]), custom, false⟩
      | none => ⟨none, custom, false⟩
    else runFetch net custom [payload] none false
  | .arr specs => runFetch net custom specs none true
  | other => runFetch net custom [other] none true

/-- Protocol variants distinguished by `handle_client`. -/
inductive Variant where
  | batchV2 : Variant
  | pinyinQ : Variant
  | legacyBatch : Variant
  | legacySingle : Variant
deriving DecidableEq

/-- The payload classification of `handle_client` (lines 376-393), in
the code's dispatch order. -/
def classify : JSON → Variant
  | .obj fs =>
    if hasKey fs "requests" then .batchV2
    else if hasKey fs "pinyin" then .pinyinQ
    else .legacySingle
  | .arr _ => .legacyBatch
  | _ => .legacySingle

/-! ## Completion-order model for batch execution

`list(executor.map(execute_request, requests_list))` hands each spec to
the worker pool and reads the results back in submission order.  The
model below makes the completion order explicit: workers finish in an
arbitrary order `order` over slot indices, each writing its result into
its own slot; the handler then reads the slots in index order. -/

/-- Run the specs under completion order `order`: slot `i` receives the
result of spec `i` whenever index `i` completes, whatever the position
of `i` in `order`. -/
def runOrderAux (exec : α → β) (specs : List α) :
    List Nat → List (Option β) → List (Option β)
  | [], slots => slots
  | i :: rest, slots =>
    runOrderAux exec specs rest
      (match specs[i]? with
       | some a => slots.set i (some (exec a))
       | none => slots)

/-- The slot table after all completions: initially every slot is
empty, then the completions run in the order given. -/
def runOrder (exec : α → β) (specs : List α) (order : List Nat) : List (Option β) :=
  runOrderAux exec specs order (List.replicate specs.length (none : Option β))

/-! ## Concrete instances used to exercise the theorems -/

/-- A small character table: one character with two initials (Z, C) and
one with a single initial (Y). -/
def exMap : Char → Option (List String) := fun c =>
  if c = 'a' then some ["zhou", "chen"]
  else if c = 'b' then some ["yi"]
  else none

/-- Concrete alphanumeric test. -/
def exAlnum : Char → Bool := fun c => c.isAlphanum

/-- A network oracle with one reachable URL and everything else
failing. -/
def wNet : String → NetOutcome := fun u =>
  if u = "https://good" then .ok 200 "hello" (some (.num 1)) else .exc "boom"

/-- A two-spec batch: one fetch that succeeds, one that fails. -/
def wSpecs : List JSON :=
  [.obj [("url", .str "https://good")], .obj [("url", .str "https://bad")]]

/-- The empty override/cache map. -/
def wEmpty : StrMap := fun _ => none

/-- Hosts map with one entry. -/
def wHosts : StrMap := fun h => if h = "api.tmdb.org" then some "1.2.3.4" else none

/-- Custom override map with one entry. -/
def wCustom : StrMap := fun h => if h = "h" then some "9.9.9.9" else none

/-- Override map with one entry, for the dns-settings witness. -/
def wMap : StrMap := fun x => if x = "k" then some "1.2.3.4" else none

end Daemon

namespace Daemon

/-! ## Helper lemmas -/

theorem hasKey_of_jlookup (fs : List (String × JSON)) (k : String) (v : JSON)
    (h : jlookup fs k = some v) : hasKey fs k = true := by
  unfold jlookup at h
  cases hf : fs.find? (fun kv => kv.1 = k) with
  | none => rw [hf] at h; simp at h
  | some kv =>
    have hp := List.find?_some hf
    have hm := List.mem_of_find?_eq_some hf
    unfold hasKey
    exact List.any_eq_true.mpr ⟨kv, hm, hp⟩

theorem dohChain_eval (providers : List (Option String)) (cache : StrMap)
    (host : String) (p q : Nat) :
    (dohChain providers cache host p q).answer = firstSome providers
    ∧ (dohChain providers cache host p q).cache =
        (match firstSome providers with
         | some ip => fun x => if x = host then some ip else cache x
         | none => cache)
    ∧ (dohChain providers cache host p q).probes = p := by
  induction providers generalizing q with
  | nil => exact ⟨rfl, rfl, rfl⟩
  | cons o rest ih =>
    cases o with
    | some ip => exact ⟨rfl, rfl, rfl⟩
    | none => simpa [dohChain, firstSome] using ih (q + 1)

theorem dohChain_cache_pointwise (providers : List (Option String)) (cache : StrMap)
    (host : String) (p q : Nat) (x : String) :
    (dohChain providers cache host p q).cache x = cache x
    ∨ (x = host ∧ (dohChain providers cache host p q).cache x = firstSome providers
        ∧ (firstSome providers).isSome = true) := by
  obtain ⟨-, hc, -⟩ := dohChain_eval providers cache host p q
  rw [hc]
  cases hfs : firstSome providers with
  | none => left; rfl
  | some ip =>
    by_cases hx : x = host
    · right; exact ⟨hx, by simp [hx], rfl⟩
    · left; simp [hx]

/-! ## C7: a Hosts-Map hit short-circuits everything else -/

/-- C7: for every hostname present in the Hosts Map, `doh_lookup`
returns the mapped address with the cache unchanged, zero reachability
probes and zero DoH queries; the result does not depend on the custom
map, the probe, the providers or the cache (all universally
quantified), so none of them is consulted. -/
theorem hosts_short_circuit (hosts custom : StrMap) (probe : String → String → Bool)
    (providers : List (Option String)) (cache : StrMap) (host ip : String)
    (h : hosts host = some ip) :
    doh_lookup hosts custom probe providers cache host = ⟨some ip, cache, 0, 0⟩ := by
  unfold doh_lookup
  rw [h]

theorem hosts_short_circuit_witness :
    doh_lookup wHosts wCustom (fun _ _ => false) [some "8.8.8.8"] wEmpty "api.tmdb.org"
      = ⟨some "1.2.3.4", wEmpty, 0, 0⟩ :=
  hosts_short_circuit wHosts wCustom (fun _ _ => false) [some "8.8.8.8"] wEmpty
    "api.tmdb.org" "1.2.3.4" rfl

/-! ## C9: names containing a colon bypass the whole chain -/

/-- C9: every hostname containing a colon makes `is_ip_address` return
true (whatever `inet_aton` does), so `patched_getaddrinfo` delegates it
to the original resolver for every target list and every resolver
outcome — the hosts/override/DoH chain is bypassed. -/
theorem colon_is_ip_bypass (aton : String → Bool) (targets : List String)
    (lookup : String → Option String) (host : String)
    (h : host.toList.contains ':' = true) :
    is_ip_address aton host = true
    ∧ patched_getaddrinfo aton targets lookup host = .original := by
  have h1 : is_ip_address aton host = true := by
    unfold is_ip_address
    rw [h, Bool.or_true]
  exact ⟨h1, by simp [patched_getaddrinfo, h1]⟩

theorem colon_is_ip_bypass_witness :
    is_ip_address (fun _ => false) "trakt.tv:443" = true
    ∧ patched_getaddrinfo (fun _ => false) TARGET_DOMAINS
        (fun _ => some "6.6.6.6") "trakt.tv:443" = .original :=
  colon_is_ip_bypass (fun _ => false) TARGET_DOMAINS (fun _ => some "6.6.6.6")
    "trakt.tv:443" (by decide)

/-! ## C2: interception is by substring containment, not suffix match -/

/-- C2 counterexample: `"tmdb.org.evil.com"` matches no target domain as
a suffix, yet `patched_getaddrinfo` intercepts it (because the target
`"tmdb.org"` occurs in it as a substring) and, when the DoH chain
answers, resolves it through the override chain instead of passing it
unmodified to the original resolver.  (`inet_aton` rejects this
string, so the `aton` oracle returning false is faithful.) -/
theorem target_suffix_refuted :
    matchesSuffix TARGET_DOMAINS "tmdb.org.evil.com" = false
    ∧ patched_getaddrinfo (fun _ => false) TARGET_DOMAINS
        (fun _ => some "6.6.6.6") "tmdb.org.evil.com" = .doh "6.6.6.6" :=
  ⟨by decide, by decide⟩

/-- C2 amended: the matching relation is substring containment
(Python's `d in host`), not suffix matching.  Every hostname in which
no target domain occurs as a substring is passed unmodified to the
original system resolver regardless of the resolver chain's state, and
a non-IP hostname containing a target domain as a substring is
intercepted whenever the chain answers. -/
theorem target_substring_interception (aton : String → Bool) (targets : List String)
    (lookup : String → Option String) (host : String) :
    (targets.any (fun d => containsSub d.toList host.toList) = false →
      patched_getaddrinfo aton targets lookup host = .original)
    ∧ (∀ ip, is_ip_address aton host = false →
        targets.any (fun d => containsSub d.toList host.toList) = true →
        lookup host = some ip →
        patched_getaddrinfo aton targets lookup host = .doh ip) := by
  constructor
  · intro h
    unfold patched_getaddrinfo
    by_cases hip : is_ip_address aton host = true
    · simp only [hip]
      simp
    · simp only [h]
      simp
  · intro ip hip hsub hl
    unfold patched_getaddrinfo
    simp only [hip, hsub, hl]
    simp

theorem target_substring_interception_witness :
    patched_getaddrinfo (fun _ => false) TARGET_DOMAINS
        (fun _ => some "6.6.6.6") "example.net" = .original
    ∧ patched_getaddrinfo (fun _ => false) TARGET_DOMAINS
        (fun _ => some "6.6.6.6") "api.tmdb.org" = .doh "6.6.6.6" :=
  ⟨(target_substring_interception (fun _ => false) TARGET_DOMAINS
      (fun _ => some "6.6.6.6") "example.net").1 (by decide),
   (target_substring_interception (fun _ => false) TARGET_DOMAINS
      (fun _ => some "6.6.6.6") "api.tmdb.org").2 "6.6.6.6" (by decide) (by decide) rfl⟩

/-! ## C4: dispatch order of `handle_client` -/

/-- C4: payload classification in the code's exact order: an object
with a `requests` key is a V2 batch even when it also has a `pinyin`
key; otherwise an object with a `pinyin` key is an initial-letter
query; otherwise an array is a legacy batch; otherwise an object is a
legacy single fetch spec. -/
theorem dispatch_order_exact :
    (∀ fs, hasKey fs "requests" = true → classify (.obj fs) = .batchV2)
    ∧ (∀ fs, hasKey fs "requests" = false → hasKey fs "pinyin" = true →
        classify (.obj fs) = .pinyinQ)
    ∧ (∀ l, classify (.arr l) = .legacyBatch)
    ∧ (∀ fs, hasKey fs "requests" = false → hasKey fs "pinyin" = false →
        classify (.obj fs) = .legacySingle) := by
  refine ⟨?_, ?_, fun l => rfl, ?_⟩
  · intro fs h1
    simp [classify, h1]
  · intro fs h1 h2
    simp [classify, h1, h2]
  · intro fs h1 h2
    simp [classify, h1, h2]

theorem dispatch_order_exact_witness :
    classify (.obj [("requests", .arr []), ("pinyin", .str "x")]) = .batchV2
    ∧ classify (.obj [("pinyin", .str "x")]) = .pinyinQ
    ∧ classify (.arr []) = .legacyBatch
    ∧ classify (.obj [("url", .str "u")]) = .legacySingle :=
  ⟨dispatch_order_exact.1 _ (by decide),
   dispatch_order_exact.2.1 _ (by decide) (by decide),
   dispatch_order_exact.2.2.1 [],
   dispatch_order_exact.2.2.2 _ (by decide) (by decide)⟩

/-! ## C6: the dns_settings update is idempotent -/

theorem applyEntry_eval (m : StrMap) (kv : String × String) (x : String) :
    applyEntry m kv x
      = if x = kv.1 then (if kv.2 = "" then none else some kv.2) else m x := by
  rcases kv with ⟨k, v⟩
  by_cases h2 : v = ""
  · by_cases hm : m k = none
    · by_cases hx : x = k <;> simp [applyEntry, h2, hm, hx]
    · by_cases hx : x = k <;> simp [applyEntry, h2, hm, hx]
  · by_cases hm : m k = some v
    · by_cases hx : x = k <;> simp [applyEntry, h2, hm, hx]
    · by_cases hx : x = k <;> simp [applyEntry, h2, hm, hx]

theorem applyDnsSettings_eval (u : List (String × String)) (m : StrMap) (x : String) :
    applyDnsSettings m u x =
      match lookupLast u x with
      | none => m x
      | some v => if v = "" then none else some v := by
  induction u generalizing m with
  | nil => rfl
  | cons kv rest ih =>
    have h1 : applyDnsSettings m (kv :: rest) x
        = applyDnsSettings (applyEntry m kv) rest x := rfl
    rw [h1, ih]
    cases hrest : lookupLast rest x with
    | some w => simp [lookupLast, hrest]
    | none =>
      simp only [lookupLast, hrest]
      by_cases hx : x = kv.1
      · simp [applyEntry_eval, hx]
      · simp [applyEntry_eval, hx]

/-- C6: applying the same `dns_settings` update twice to the custom
override map gives the same map as applying it once, and an update
whose (last) entry for a key carries the empty string leaves that key
absent from the map. -/
theorem dns_update_idempotent :
    (∀ (m : StrMap) (u : List (String × String)) (x : String),
        applyDnsSettings (applyDnsSettings m u) u x = applyDnsSettings m u x)
    ∧ (∀ (m : StrMap) (u : List (String × String)) (k : String),
        lookupLast u k = some "" → applyDnsSettings m u k = none) := by
  constructor
  · intro m u x
    rw [applyDnsSettings_eval, applyDnsSettings_eval]
    cases h : lookupLast u x with
    | some v => simp
    | none => simp [applyDnsSettings_eval, h]
  · intro m u k h
    rw [applyDnsSettings_eval, h]
    simp

theorem dns_update_idempotent_witness :
    applyDnsSettings (applyDnsSettings wMap [("k", "")]) [("k", "")] "k"
        = applyDnsSettings wMap [("k", "")] "k"
    ∧ applyDnsSettings wMap [("k", "")] "k" = none :=
  ⟨dns_update_idempotent.1 wMap [("k", "")] "k",
   dns_update_idempotent.2 wMap [("k", "")] "k" (by decide)⟩

/-! ## C3: only successful DoH answers enter the cache -/

/-- C3: across every path of `doh_lookup`, a cache entry changes only
at the looked-up host and only to a successful DoH answer (hosts-file
hits and custom overrides never enter the cache); and when a custom
override's reachability probe fails, the lookup falls through to the
cache and then to the DoH chain — the unreachable override address is
not cached, and nothing negative is cached either. -/
theorem cache_only_from_doh (hosts custom : StrMap) (probe : String → String → Bool)
    (providers : List (Option String)) (cache : StrMap) (host : String) :
    (∀ x, (doh_lookup hosts custom probe providers cache host).cache x = cache x
        ∨ (x = host
            ∧ (doh_lookup hosts custom probe providers cache host).cache x
                = firstSome providers
            ∧ (firstSome providers).isSome = true))
    ∧ (∀ ip, hosts host = none → custom host = some ip → ip ≠ "" →
        probe ip host = false →
        doh_lookup hosts custom probe providers cache host =
          match cache host with
          | some c => ⟨some c, cache, 1, 0⟩
          | none => dohChain providers cache host 1 0) := by
  constructor
  · intro x
    unfold doh_lookup
    cases hh : hosts host with
    | some ip => left; rfl
    | none =>
      try dsimp only
      cases hc : custom host with
      | some ip =>
        try dsimp only
        by_cases hp : (decide (ip ≠ "") && probe ip host) = true
        · left
          rw [if_pos hp]
        · rw [if_neg hp]
          try dsimp only
          cases hch : cache host with
          | some c => left; rfl
          | none => exact dohChain_cache_pointwise providers cache host _ 0 x
      | none =>
        try dsimp only
        cases hch : cache host with
        | some c => left; rfl
        | none => exact dohChain_cache_pointwise providers cache host 0 0 x
  · intro ip hh hc hip hp
    unfold doh_lookup
    rw [hh, hc]
    try dsimp only
    have hcond : ¬((decide (ip ≠ "") && probe ip host) = true) := by
      rw [hp, Bool.and_false]
      exact Bool.false_ne_true
    rw [if_neg hcond]
    cases hch : cache host <;> simp [hip, hp]

theorem cache_only_from_doh_witness :
    doh_lookup wEmpty wCustom (fun _ _ => false) [none, some "8.8.8.8"] wEmpty "h"
      = dohChain [none, some "8.8.8.8"] wEmpty "h" 1 0 :=
  (cache_only_from_doh wEmpty wCustom (fun _ _ => false)
    [none, some "8.8.8.8"] wEmpty "h").2 "9.9.9.9" rfl rfl (by decide) rfl

/-! ## C5: the pinyin algorithm matches its specification -/

theorem char_initials_eq_spec (charMap : Char → Option (List String))
    (isAlnum : Char → Bool) (upper : Char → Char)
    (hwf : ∀ c ps, charMap c = some ps → initials_of upper ps ≠ [])
    (text : List Char) :
    char_initials charMap isAlnum upper text
      = spec_char_initials charMap isAlnum upper text := by
  induction text with
  | nil => rfl
  | cons c rest ih =>
    simp only [char_initials, spec_char_initials]
    cases hmc : charMap c with
    | some ps =>
      have hne := hwf c ps hmc
      simp [hne, ih]
    | none => simp [ih]

/-- C5: with a well-formed character table (every table entry yields at
least one initial, as any real pinyin table does), the function
computes exactly the claim's algorithm: per-character initial sets,
Cartesian product in positional order, concatenation, first-seen
deduplication, `"|"`-join; the empty input gives the empty result, and
the initial sets `[Z, C]` and `[Y]` give `"ZY|CY"`. -/
theorem pinyin_matches_spec (charMap : Char → Option (List String))
    (isAlnum : Char → Bool) (upper : Char → Char)
    (hwf : ∀ c ps, charMap c = some ps → initials_of upper ps ≠ []) :
    (∀ text, get_pinyin_permutations charMap isAlnum upper false text
        = spec_pinyin charMap isAlnum upper text)
    ∧ get_pinyin_permutations charMap isAlnum upper false [] = []
    ∧ get_pinyin_permutations exMap exAlnum Char.toUpper false ['a', 'b']
        = ['Z', 'Y', '|', 'C', 'Y'] := by
  refine ⟨?_, rfl, by decide⟩
  intro text
  by_cases ht : text = []
  · subst ht
    rfl
  · unfold get_pinyin_permutations spec_pinyin
    rw [if_neg ht, char_initials_eq_spec charMap isAlnum upper hwf text]
    simp

theorem pinyin_matches_spec_witness :
    get_pinyin_permutations exMap exAlnum Char.toUpper false ['a', 'b']
      = spec_pinyin exMap exAlnum Char.toUpper ['a', 'b'] :=
  (pinyin_matches_spec exMap exAlnum Char.toUpper (by
    intro c ps h
    by_cases ha : c = 'a'
    · simp [exMap, ha] at h
      subst h
      decide
    · by_cases hb : c = 'b'
      · simp [exMap, ha, hb] at h
        subst h
        decide
      · simp [exMap, ha, hb] at h)).1 ['a', 'b']

/-! ## C10: an exception in candidate generation returns the input -/

/-- C10: when candidate generation raises (the `genFails` oracle), the
function returns its input text unchanged — including the empty text,
which is returned before the `try` block is entered — and the pinyin
protocol branch of `handle_client` therefore answers with a
`result` object holding the input, not an `error` object. -/
theorem pinyin_exception_returns_input (net : String → NetOutcome)
    (charMap : Char → Option (List String)) (isAlnum : Char → Bool)
    (upper : Char → Char) (custom : StrMap) (text : List Char) :
    get_pinyin_permutations charMap isAlnum upper true text = text
    ∧ (handle_client net charMap isAlnum upper true custom
        (.obj [("pinyin", .str (String.mk text))])).response
      = some (.obj [("result", .str (String.mk text))]) := by
  have h1 : get_pinyin_permutations charMap isAlnum upper true text = text := by
    unfold get_pinyin_permutations
    by_cases ht : text = []
    · rw [if_pos ht, ht]
    · rw [if_neg ht, if_pos rfl]
  refine ⟨h1, ?_⟩
  have ht : (String.mk text).toList = text := rfl
  simp [handle_client, hasKey, jlookup, ht, h1]

/-! ## C8: missing or empty URL, and the synchronous single-spec path -/

theorem mapE_all_ok (net : String → NetOutcome) (specs : List JSON)
    (h : specs.all specOk = true) :
    mapE (execute_request net) specs = .ok (specs.map (exec_total net)) := by
  induction specs with
  | nil => rfl
  | cons s rest ih =>
    simp only [List.all_cons, Bool.and_eq_true] at h
    obtain ⟨h1, h2⟩ := h
    cases s with
    | obj fs => simp [mapE, execute_request, exec_total, ih h2]
    | null => simp [specOk] at h1
    | bool b => simp [specOk] at h1
    | num n => simp [specOk] at h1
    | str s => simp [specOk] at h1
    | arr l => simp [specOk] at h1

theorem runFetch_eval_nodns (net : String → NetOutcome) (custom : StrMap)
    (specs : List JSON) (hok : specs.all specOk = true) (wrapArray : Bool) :
    runFetch net custom specs none wrapArray
      = ⟨respondWith wrapArray (specs.map (exec_total net)), custom,
          specs.length != 1⟩ := by
  unfold runFetch
  rw [hok, mapE_all_ok net specs hok]
  rfl

/-- C8: a fetch spec whose `url` field is missing or empty yields
`{'error': 'No URL provided'}`; and a request carrying exactly one
spec — the legacy single dict or a V2 batch of one — is answered with
that result computed synchronously, the worker pool never being
contacted (`poolUsed = false`). -/
theorem no_url_sync_error (net : String → NetOutcome)
    (charMap : Char → Option (List String)) (isAlnum : Char → Bool)
    (upper : Char → Char) (genFails : Bool) (custom : StrMap) :
    (∀ fs, jlookup fs "url" = none →
        fetch_result net fs = .obj [("error", .str "No URL provided")])
    ∧ (∀ fs, jlookup fs "url" = some (.str "") →
        fetch_result net fs = .obj [("error", .str "No URL provided")])
    ∧ (∀ fs, hasKey fs "requests" = false → hasKey fs "pinyin" = false →
        specOk (.obj fs) = true →
        handle_client net charMap isAlnum upper genFails custom (.obj fs)
          = ⟨some (fetch_result net fs), custom, false⟩)
    ∧ (∀ spec, specOk spec = true →
        handle_client net charMap isAlnum upper genFails custom
            (.obj [("requests", .arr [spec])])
          = ⟨some (.arr [exec_total net spec]), custom, false⟩) := by
  refine ⟨?_, ?_, ?_, ?_⟩
  · intro fs h
    unfold fetch_result
    rw [h]
    rfl
  · intro fs h
    unfold fetch_result
    rw [h]
    rfl
  · intro fs h1 h2 hok
    unfold handle_client
    dsimp only
    rw [h1]
    simp only [Bool.false_eq_true, if_false, h2]
    have hall : [JSON.obj fs].all specOk = true := by simp [hok]
    rw [runFetch_eval_nodns net custom _ hall false]
    rfl
  · intro spec hok
    unfold handle_client
    dsimp only
    have hk : hasKey [("requests", JSON.arr [spec])] "requests" = true := by
      simp [hasKey]
    rw [hk]
    simp only [if_true]
    have hj : jlookup [("requests", JSON.arr [spec])] "requests"
        = some (.arr [spec]) := by simp [jlookup]
    have hd : jlookup [("requests", JSON.arr [spec])] "dns_settings" = none := by
      simp [jlookup]
    rw [hj]
    dsimp only
    have hall : [spec].all specOk = true := by simp [hok]
    rw [hd, runFetch_eval_nodns net custom _ hall true]
    rfl

theorem no_url_sync_error_witness :
    fetch_result wNet [("note", .str "x")] = .obj [("error", .str "No URL provided")]
    ∧ fetch_result wNet [("url", .str "")] = .obj [("error", .str "No URL provided")]
    ∧ handle_client wNet exMap exAlnum Char.toUpper false wEmpty
        (.obj [("url", .str "")])
      = ⟨some (fetch_result wNet [("url", .str "")]), wEmpty, false⟩ := by
  have h := no_url_sync_error wNet exMap exAlnum Char.toUpper false wEmpty
  exact ⟨h.1 _ (by simp [jlookup]), h.2.1 _ (by simp [jlookup]),
    h.2.2.1 _ (by simp [hasKey]) (by simp [hasKey]) (by simp [specOk, jlookup])⟩

/-! ## C1: batches preserve submission order; failures stay in-slot -/

theorem runOrderAux_length (exec : α → β) (specs : List α) :
    ∀ (order : List Nat) (slots : List (Option β)),
      (runOrderAux exec specs order slots).length = slots.length := by
  intro order
  induction order with
  | nil => intro slots; rfl
  | cons i rest ih =>
    intro slots
    rw [runOrderAux, ih]
    cases h : specs[i]? <;> simp

theorem runOrderAux_getElem (exec : α → β) (specs : List α) :
    ∀ (order : List Nat) (slots : List (Option β)),
      slots.length = specs.length →
      ∀ j, j < specs.length →
        (runOrderAux exec specs order slots)[j]?
          = if j ∈ order then ((specs.map exec).map some)[j]? else slots[j]? := by
  intro order
  induction order with
  | nil =>
    intro slots _ j _
    simp [runOrderAux]
  | cons i rest ih =>
    intro slots hlen j hj
    rw [runOrderAux]
    have hstep : (match specs[i]? with
        | some a => slots.set i (some (exec a))
        | none => slots).length = specs.length := by
      cases h : specs[i]? <;> simp [hlen]
    rw [ih _ hstep j hj]
    by_cases hjr : j ∈ rest
    · rw [if_pos hjr, if_pos (List.mem_cons_of_mem i hjr)]
    · rw [if_neg hjr]
      by_cases hij : j = i
      · subst hij
        rw [if_pos (List.mem_cons_self j rest)]
        have hjs : specs[j]? = some specs[j] := List.getElem?_eq_getElem hj
        rw [hjs]
        dsimp only
        rw [List.getElem?_set]
        have hjlen : j < slots.length := by rw [hlen]; exact hj
        simp [hjlen, List.getElem?_map, hjs]
      · have hnotmem : j ∉ i :: rest := by
          intro hmem
          rcases List.mem_cons.mp hmem with h1 | h1
          · exact hij h1
          · exact hjr h1
        rw [if_neg hnotmem]
        cases h : specs[i]? with
        | some a =>
          dsimp only
          rw [List.getElem?_set, if_neg (fun hh => hij hh.symm)]
        | none => rfl

theorem runOrder_eq (exec : α → β) (specs : List α) (order : List Nat)
    (h : ∀ i, i < specs.length → i ∈ order) :
    runOrder exec specs order = (specs.map exec).map some := by
  apply List.ext_getElem?
  intro n
  by_cases hn : n < specs.length
  · unfold runOrder
    rw [runOrderAux_getElem exec specs order (List.replicate specs.length none)
        (by simp) n hn, if_pos (h n hn)]
  · have h1 : (runOrder exec specs order).length ≤ n := by
      unfold runOrder
      rw [runOrderAux_length]
      simp only [List.length_replicate]
      omega
    have h2 : ((specs.map exec).map some).length ≤ n := by
      simp only [List.length_map]
      omega
    rw [List.getElem?_eq_none h1, List.getElem?_eq_none h2]

theorem runFetch_response_dnsok (net : String → NetOutcome) (custom : StrMap)
    (specs : List JSON) (dnsVal : Option JSON) (wrapArray : Bool)
    (hok : specs.all specOk = true)
    (hdns : dnsVal = none ∨ isFalsy dnsVal = true ∨ ∃ ds, dnsVal = some (.obj ds)) :
    (runFetch net custom specs dnsVal wrapArray).response
      = respondWith wrapArray (specs.map (exec_total net))
    ∧ (runFetch net custom specs dnsVal wrapArray).poolUsed
      = (specs.length != 1) := by
  rcases hdns with h | h | ⟨ds, h⟩
  · rw [h, runFetch_eval_nodns net custom specs hok wrapArray]
    exact ⟨rfl, rfl⟩
  · cases dnsVal with
    | none =>
      rw [runFetch_eval_nodns net custom specs hok wrapArray]
      exact ⟨rfl, rfl⟩
    | some v =>
      unfold runFetch
      rw [hok, mapE_all_ok net specs hok]
      dsimp only
      rw [h]
      exact ⟨rfl, rfl⟩
  · subst h
    unfold runFetch
    rw [hok, mapE_all_ok net specs hok]
    dsimp only
    by_cases hf : isFalsy (some (JSON.obj ds)) = true
    · rw [hf]
      exact ⟨rfl, rfl⟩
    · rw [if_neg hf]
      exact ⟨rfl, rfl⟩

/-- C1: for every batch — a V2 object whose `requests` value is a list
of N well-formed fetch specs (with any well-formed `dns_settings`), or
a legacy bare array — the response is a JSON array of exactly N
results; the i-th element is the result of the i-th spec; the slot
table produced under an arbitrary completion order that completes every
index equals the in-order result list, so the output order is
independent of completion order; and a spec whose fetch raises yields
an error object in its own slot rather than being omitted or raised. -/
theorem batch_preserves_order_and_slots (net : String → NetOutcome)
    (charMap : Char → Option (List String)) (isAlnum : Char → Bool)
    (upper : Char → Char) (genFails : Bool) (custom : StrMap)
    (specs : List JSON) (order : List Nat) (fs : List (String × JSON))
    (hreq : jlookup fs "requests" = some (.arr specs))
    (hdns : jlookup fs "dns_settings" = none
        ∨ isFalsy (jlookup fs "dns_settings") = true
        ∨ ∃ ds, jlookup fs "dns_settings" = some (.obj ds))
    (hok : specs.all specOk = true)
    (horder : ∀ i, i < specs.length → i ∈ order) :
    runOrder (exec_total net) specs order = (specs.map (exec_total net)).map some
    ∧ (handle_client net charMap isAlnum upper genFails custom (.obj fs)).response
        = some (.arr (specs.map (exec_total net)))
    ∧ (handle_client net charMap isAlnum upper genFails custom (.arr specs)).response
        = some (.arr (specs.map (exec_total net)))
    ∧ (specs.map (exec_total net)).length = specs.length
    ∧ (∀ i, i < specs.length →
        (specs.map (exec_total net))[i]? = (specs[i]?).map (exec_total net))
    ∧ (∀ (i : Nat) (fsi : List (String × JSON)) (u m : String),
        specs[i]? = some (.obj fsi) →
        jlookup fsi "url" = some (.str u) → ¬u = "" → net u = .exc m →
        (specs.map (exec_total net))[i]? = some (.obj [("error", .str m)])) := by
  refine ⟨runOrder_eq (exec_total net) specs order horder, ?_, ?_, by simp, ?_, ?_⟩
  · unfold handle_client
    dsimp only
    rw [if_pos (hasKey_of_jlookup fs "requests" _ hreq), hreq]
    dsimp only
    rw [(runFetch_response_dnsok net custom specs _ true hok hdns).1]
    rfl
  · unfold handle_client
    dsimp only
    rw [(runFetch_response_dnsok net custom specs none true hok (Or.inl rfl)).1]
    rfl
  · intro i _
    rw [List.getElem?_map]
  · intro i fsi u m h1 h2 h3 h4
    rw [List.getElem?_map, h1]
    show some (exec_total net (.obj fsi)) = _
    unfold exec_total fetch_result
    dsimp only
    rw [h2]
    have hfalsy : isFalsy (some (JSON.str u)) = false := by
      simp [isFalsy, h3]
    rw [hfalsy]
    dsimp only
    rw [h4]
    rfl

theorem batch_preserves_order_witness :
    runOrder (exec_total wNet) wSpecs [1, 0] = (wSpecs.map (exec_total wNet)).map some
    ∧ (handle_client wNet exMap exAlnum Char.toUpper false wEmpty
        (.obj [("requests", .arr wSpecs)])).response
      = some (.arr (wSpecs.map (exec_total wNet))) := by
  have h := batch_preserves_order_and_slots wNet exMap exAlnum Char.toUpper false wEmpty
    wSpecs [1, 0] [("requests", .arr wSpecs)]
    (by simp [jlookup])
    (Or.inl (by simp [jlookup]))
    (by decide)
    (by
      intro i hi
      have h2 : i < 2 := by simpa [wSpecs] using hi
      interval_cases i <;> decide)
  exact ⟨h.1, h.2.1⟩

end Daemon
